import Mathlib

/-!
Shallow embedding of `src/vm/native/native.cpp` (pluotsorbet native runtime
support layer): signed 64-bit arithmetic helpers (`lAdd`, `lNeg`, `lSub`,
`lDiv`, `lMul`, `lRem`, `lShl`, `lShr`, `lUshr`, `lCmp`) and the bump-pointer
allocator (`gcMalloc`, globals `heap`/`bump` set in `main`).

Conventions of the embedding:
* A signed 64-bit value is an `Int` in `[-2^63, 2^63)`; two's-complement
  wrapping is `wrap64`.  Overflowing add/sub/mul/neg wrap (the generated
  code's behavior).
* `lDiv`/`lRem` return `Option Int`: `none` models the undefined/faulting
  cases of C++ `/` and `%` — divisor zero, and the unrepresentable quotient
  `INT64_MIN / -1` (C++ leaves both undefined; the hardware traps on both).
* Pointers (`uintptr_t`) are 32-bit (the asm.js/emscripten target of this
  repository), modeled as `Nat` values reduced modulo `2^32 = 4294967296`.
* The shift count of a 64-bit shift is masked modulo 64, as the target's
  64-bit shift instructions do.
-/

/-- Smallest signed 64-bit value, `-2^63`. -/
def int64Min : Int := -9223372036854775808

/-- `x` is representable as a signed 64-bit integer. -/
def inRange64 (x : Int) : Prop := -9223372036854775808 ≤ x ∧ x < 9223372036854775808

/-- Two's-complement wrap of an integer into the signed 64-bit range. -/
def wrap64 (x : Int) : Int :=
  (x + 9223372036854775808) % 18446744073709551616 - 9223372036854775808

/-- Unsigned 64-bit bit pattern of an integer (two's complement). -/
def toU64 (x : Int) : Nat := (x % 18446744073709551616).toNat

/-- `void lAdd(int64_t *result, int64_t *l, int64_t *r) { *result = *l + *r; }` -/
def lAdd (l r : Int) : Int := wrap64 (l + r)

/-- `void lNeg(int64_t *result, int64_t *l) { *result = -*l; }` -/
def lNeg (l : Int) : Int := wrap64 (-l)

/-- `void lSub(int64_t *result, int64_t *l, int64_t *r) { *result = *l - *r; }` -/
def lSub (l r : Int) : Int := wrap64 (l - r)

/-- `void lDiv(int64_t *result, int64_t *l, int64_t *r) { *result = *l / *r; }`
C++ `/` on `int64_t` truncates toward zero (`Int.tdiv`); it is undefined when
the divisor is zero or when the quotient is unrepresentable
(`INT64_MIN / -1`), modeled as `none`. -/
def lDiv (l r : Int) : Option Int :=
  if r = 0 ∨ (l = int64Min ∧ r = -1) then none else some (Int.tdiv l r)

/-- `void lMul(int64_t *result, int64_t *l, int64_t *r) { *result = *l * *r; }` -/
def lMul (l r : Int) : Int := wrap64 (l * r)

/-- `void lRem(int64_t *result, int64_t *l, int64_t *r) { *result = *l % *r; }`
C++ `%` on `int64_t` is the truncated-division remainder (`Int.tmod`);
undefined exactly where `/` is. -/
def lRem (l r : Int) : Option Int :=
  if r = 0 ∨ (l = int64Min ∧ r = -1) then none else some (Int.tmod l r)

/-- `void lShl(int64_t *result, int64_t *l, int32_t v) { *result = *l << v; }`
The 64-bit shift of the target masks the count modulo 64; the result is the
shifted bit pattern reinterpreted as signed. -/
def lShl (l v : Int) : Int := wrap64 ((toU64 l <<< (toU64 v % 64) : Nat) : Int)

/-- `void lShr(...) { *result = *l >> v; }` — arithmetic shift right, i.e.
floor division by `2^count`. -/
def lShr (l v : Int) : Int := wrap64 l / ((2 : Int) ^ (toU64 v % 64))

/-- `void lUshr(...) { *result = (uint64_t)*l >> v; }` — logical shift right
of the bit pattern. -/
def lUshr (l v : Int) : Int := ((toU64 l >>> (toU64 v % 64) : Nat) : Int)

/-- `void lCmp(int32_t *result, int64_t *l, int64_t *r)`:
`1` if `*l > *r`, `-1` if `*l < *r`, else `0`. -/
def lCmp (l r : Int) : Int := if l > r then 1 else if l < r then -1 else 0

/-- Unsigned 32-bit bit pattern of an integer (two's complement), the value a
32-bit `int` contributes when combined with a 32-bit `uintptr_t`. -/
def su32 (x : Int) : Nat := (x % 4294967296).toNat

/-- The amount `(size + 3) & ~0x03` (as a 32-bit pattern) by which `gcMalloc`
advances `bump`; `4294967292 = 0xFFFFFFFC` is the pattern of `~0x03`. -/
def roundedAdvance (size : Int) : Nat := su32 (size + 3) &&& 4294967292

/-- `uintptr_t gcMalloc(int32_t size) { uintptr_t curr = bump;
bump += (size + 3) & ~0x03; return curr; }` — state-passing rendition:
given the current `bump`, returns the allocated address and the new `bump`
(32-bit pointer arithmetic wraps modulo `2^32`). -/
def gcMalloc (size : Int) (bump : Nat) : Nat × Nat :=
  (bump, (bump + roundedAdvance size) % 4294967296)

/-- Process-wide allocator state: `uintptr_t heap = 0, bump = 0;`. -/
structure AllocState where
  heap : Nat
  bump : Nat

/-- Size of the backing reservation requested in `main`: `1024 * 1024 * 16`. -/
def reservedBytes : Nat := 1024 * 1024 * 16

/-- `int main() { bump = heap = (uintptr_t)malloc(1024 * 1024 * 16); }`
`r` is the address returned by `malloc(reservedBytes)` — `0` (null) when the
reservation fails; `main` stores it into both globals without any check. -/
def mainInit (r : Nat) : AllocState := { heap := r, bump := r }

/-- Addresses returned by a sequence of `gcMalloc` calls starting from
cursor `b`. -/
def allocAddrs (sizes : List Int) (b : Nat) : List Nat :=
  match sizes with
  | [] => []
  | s :: rest => (gcMalloc s b).1 :: allocAddrs rest (gcMalloc s b).2

/-- Cursor value after a sequence of `gcMalloc` calls starting from `b`. -/
def allocBump (sizes : List Int) (b : Nat) : Nat :=
  match sizes with
  | [] => b
  | s :: rest => allocBump rest (gcMalloc s b).2

/-- Total advance of the cursor over a sequence of allocations (when no
32-bit wraparound occurs). -/
def totalAdvance (sizes : List Int) : Nat := (sizes.map roundedAdvance).sum

/-! Basic facts about the wrapping helpers. -/

theorem wrap64_lt (x : Int) : wrap64 x < 9223372036854775808 := by
  unfold wrap64; omega

theorem wrap64_le (x : Int) : -9223372036854775808 ≤ wrap64 x := by
  unfold wrap64; omega

theorem wrap64_emod (x : Int) :
    wrap64 x % 18446744073709551616 = x % 18446744073709551616 := by
  unfold wrap64; omega

theorem wrap64_eq_of_range {x : Int} (h1 : -9223372036854775808 ≤ x)
    (h2 : x < 9223372036854775808) : wrap64 x = x := by
  unfold wrap64; omega

theorem su32_lt (x : Int) : su32 x < 4294967296 := by
  unfold su32; omega

theorem su32_of_nonneg {x : Int} (h0 : 0 ≤ x) (h1 : x < 4294967296) :
    su32 x = x.toNat := by
  unfold su32; omega

theorem toU64_cast (x : Int) : ((toU64 x : Nat) : Int) = x % 18446744073709551616 := by
  unfold toU64; omega

/-! The bitmask `& ~0x03` clears the two low bits: on a 32-bit pattern it is
rounding down to a multiple of 4. -/

theorem mask_eq_shift : (4294967292 : Nat) = (2 ^ 30 - 1) <<< 2 := by
  norm_num [Nat.shiftLeft_eq]

theorem div_mul_eq_shift (y : Nat) : y / 4 * 4 = (y >>> 2) <<< 2 := by
  norm_num [Nat.shiftRight_eq_div_pow, Nat.shiftLeft_eq]

theorem mask_spec (x : Nat) : x &&& 4294967292 = x % 4294967296 / 4 * 4 := by
  have h32 : (4294967296 : Nat) = 2 ^ 32 := by norm_num
  rw [h32, mask_eq_shift, div_mul_eq_shift]
  apply Nat.eq_of_testBit_eq
  intro i
  simp only [Nat.testBit_and, Nat.testBit_shiftLeft, Nat.testBit_shiftRight,
    Nat.testBit_two_pow_sub_one, Nat.testBit_mod_two_pow]
  by_cases h2 : 2 ≤ i
  · have hi : 2 + (i - 2) = i := by omega
    have hd : (i - 2 < 30) = (i < 32) := by
      apply propext; omega
    simp [h2, hi, hd, Bool.and_comm, Bool.and_left_comm]
  · simp [h2]

/-! Derived facts about the allocator's advance amount. -/

theorem roundedAdvance_eq (s : Int) :
    roundedAdvance s = su32 (s + 3) / 4 * 4 := by
  unfold roundedAdvance
  rw [mask_spec, Nat.mod_eq_of_lt (su32_lt _)]

theorem roundedAdvance_of_nonneg {s : Int} (h0 : 0 ≤ s) (h1 : s + 3 < 4294967296) :
    roundedAdvance s = (s.toNat + 3) / 4 * 4 := by
  rw [roundedAdvance_eq, su32_of_nonneg (by omega) h1]
  congr 1
  omega

theorem roundedAdvance_dvd (s : Int) : 4 ∣ roundedAdvance s := by
  rw [roundedAdvance_eq]; omega

theorem roundedAdvance_lt (s : Int) : roundedAdvance s < 4294967296 := by
  rw [roundedAdvance_eq]
  have := su32_lt (s + 3)
  omega

theorem roundedAdvance_pos_bounds {s : Int} (h0 : 0 < s) (h1 : s < 2147483648) :
    4 ≤ roundedAdvance s ∧ s.toNat ≤ roundedAdvance s ∧
      roundedAdvance s ≤ s.toNat + 3 := by
  rw [roundedAdvance_of_nonneg (by omega) (by omega)]
  omega

theorem gcMalloc_fst (s : Int) (b : Nat) : (gcMalloc s b).1 = b := rfl

theorem gcMalloc_snd (s : Int) (b : Nat) :
    (gcMalloc s b).2 = (b + roundedAdvance s) % 4294967296 := rfl

theorem allocAddrs_cons (s : Int) (rest : List Int) (b : Nat) :
    allocAddrs (s :: rest) b
      = b :: allocAddrs rest ((b + roundedAdvance s) % 4294967296) := rfl

theorem allocBump_cons (s : Int) (rest : List Int) (b : Nat) :
    allocBump (s :: rest) b
      = allocBump rest ((b + roundedAdvance s) % 4294967296) := rfl

/-- Every address handed out is congruent to the starting cursor modulo 4,
with no hypotheses: both the advance and the pointer wrap preserve
alignment. -/
theorem allocAddrs_align (sizes : List Int) :
    ∀ b : Nat, ∀ a ∈ allocAddrs sizes b, a % 4 = b % 4 := by
  induction sizes with
  | nil => intro b a ha; simp [allocAddrs] at ha
  | cons s rest ih =>
      intro b a ha
      rw [allocAddrs_cons] at ha
      rcases List.mem_cons.mp ha with h | h
      · rw [h]
      · have h4 : 4 ∣ roundedAdvance s := roundedAdvance_dvd s
        have := ih ((b + roundedAdvance s) % 4294967296) a h
        rw [this, Nat.mod_mod_of_dvd _ (by norm_num : (4:Nat) ∣ 4294967296)]
        omega

/-- The cursor stays congruent to its starting value modulo 4. -/
theorem allocBump_align (sizes : List Int) :
    ∀ b : Nat, allocBump sizes b % 4 = b % 4 := by
  induction sizes with
  | nil => intro b; rfl
  | cons s rest ih =>
      intro b
      rw [allocBump_cons]
      have h4 : 4 ∣ roundedAdvance s := roundedAdvance_dvd s
      rw [ih, Nat.mod_mod_of_dvd _ (by norm_num : (4:Nat) ∣ 4294967296)]
      omega

/-- Main allocator invariant: for positive in-range sizes, while the cursor
addition never wraps modulo `2^32`, every address is at least the starting
cursor, addresses strictly increase, and the granted byte ranges
`[addr, addr + roundedAdvance)` are pairwise disjoint. -/
theorem alloc_spec (sizes : List Int) :
    ∀ b : Nat, (∀ s ∈ sizes, 0 < s ∧ s < 2147483648) →
      b + totalAdvance sizes < 4294967296 →
      (∀ a ∈ allocAddrs sizes b, b ≤ a) ∧
      List.Chain' (fun x y => x < y) (allocAddrs sizes b) ∧
      List.Pairwise (fun p q => p.1 + p.2 ≤ q.1)
        ((allocAddrs sizes b).zip (sizes.map roundedAdvance)) := by
  induction sizes with
  | nil =>
      intro b _ _
      refine ⟨?_, ?_, ?_⟩ <;> simp [allocAddrs]
  | cons s rest ih =>
      intro b hpos hcap
      have hs := hpos s (List.mem_cons_self s rest)
      have hAl := roundedAdvance_pos_bounds hs.1 hs.2
      have htot : totalAdvance (s :: rest)
          = roundedAdvance s + totalAdvance rest := by
        simp [totalAdvance]
      have hnw : b + roundedAdvance s < 4294967296 := by omega
      have hmod : (b + roundedAdvance s) % 4294967296 = b + roundedAdvance s :=
        Nat.mod_eq_of_lt hnw
      have hposr : ∀ t ∈ rest, 0 < t ∧ t < 2147483648 := by
        intro t ht; exact hpos t (List.mem_cons_of_mem _ ht)
      have hcapr : (b + roundedAdvance s) + totalAdvance rest < 4294967296 := by
        omega
      obtain ⟨ihLow, ihChain, ihPair⟩ := ih (b + roundedAdvance s) hposr hcapr
      rw [allocAddrs_cons, hmod]
      refine ⟨?_, ?_, ?_⟩
      · intro a ha
        rcases List.mem_cons.mp ha with h | h
        · omega
        · have := ihLow a h; omega
      · rw [List.chain'_cons']
        refine ⟨?_, ihChain⟩
        intro y hy
        have hmem : y ∈ allocAddrs rest (b + roundedAdvance s) :=
          List.mem_of_mem_head? hy
        have := ihLow y hmem
        omega
      · rw [List.map_cons, List.zip_cons_cons]
        refine List.Pairwise.cons ?_ ihPair
        intro q hq
        have hq1 : q.1 ∈ allocAddrs rest (b + roundedAdvance s) := by
          have := List.of_mem_zip (a := q.1) (b := q.2) (by simpa using hq)
          exact this.1
        have := ihLow q.1 hq1
        omega

/-! Facts about the truncated-division remainder used by `lRem`. -/

theorem tmod_neg_left (a b : Int) : (-a).tmod b = -(a.tmod b) := by
  simp only [Int.tmod_def, Int.neg_tdiv]
  ring

theorem natAbs_tmod_lt (a : Int) {b : Int} (hb : b ≠ 0) :
    (a.tmod b).natAbs < b.natAbs := by
  have key : ∀ (x : Int) {y : Int}, 0 < y → (x.tmod y).natAbs < y.natAbs := by
    intro x y hy
    rcases le_or_lt 0 x with hx | hx
    · have h1 := Int.tmod_nonneg y hx
      have h2 := Int.tmod_lt_of_pos x hy
      omega
    · have h1 := Int.tmod_nonneg y (by omega : (0:Int) ≤ -x)
      have h2 := Int.tmod_lt_of_pos (-x) hy
      have h3 : x.tmod y = -((-x).tmod y) := by
        rw [← tmod_neg_left, neg_neg]
      omega
  rcases lt_or_gt_of_ne hb with hneg | hpos
  · have h := key a (y := -b) (by omega)
    rw [Int.tmod_neg] at h
    omega
  · exact key a hpos

theorem tmod_sign_cases (a : Int) {b : Int} (hb : b ≠ 0) :
    a.tmod b = 0 ∨ (a.tmod b).sign = a.sign := by
  have key : ∀ (x : Int) {y : Int}, 0 < y →
      x.tmod y = 0 ∨ (x.tmod y).sign = x.sign := by
    intro x y hy
    rcases lt_trichotomy x 0 with hx | hx | hx
    · have h1 := Int.tmod_nonneg y (by omega : (0:Int) ≤ -x)
      have h3 : x.tmod y = -((-x).tmod y) := by
        rw [← tmod_neg_left, neg_neg]
      rcases eq_or_lt_of_le h1 with h | h
      · left; omega
      · right
        rw [Int.sign_eq_neg_one_iff_neg.mpr (by omega : x.tmod y < 0),
          Int.sign_eq_neg_one_iff_neg.mpr hx]
    · left; rw [hx, Int.zero_tmod]
    · have h1 := Int.tmod_nonneg y (le_of_lt hx)
      rcases eq_or_lt_of_le h1 with h | h
      · left; omega
      · right
        rw [Int.sign_eq_one_iff_pos.mpr h, Int.sign_eq_one_iff_pos.mpr hx]
  rcases lt_or_gt_of_ne hb with hneg | hpos
  · have h := key a (y := -b) (by omega)
    rw [Int.tmod_neg] at h
    exact h
  · exact key a hpos

/-! Claim theorems. -/

/-- C1: `gcMalloc size` returns the current `bump` and advances `bump` by
`(size + 3) & ~0x03` (32-bit pointer arithmetic); for non-negative 32-bit
sizes that advance is `size` rounded up to the next multiple of 4; and the
scenario `Allocate(10); Allocate(20); Allocate(1)` from a fresh base yields
offsets 0, 12 and 32. -/
theorem c1_allocate_returns_and_advances (b : Nat) (size : Int)
    (h0 : 0 ≤ size) (h1 : size < 2147483648) :
    gcMalloc size b = (b, (b + roundedAdvance size) % 4294967296) ∧
    roundedAdvance size = (size.toNat + 3) / 4 * 4 ∧
    allocAddrs [10, 20, 1] 0 = [0, 12, 32] := by
  refine ⟨rfl, ?_, by decide⟩
  exact roundedAdvance_of_nonneg h0 (by omega)

/-- Witness for C1 at `b = 0`, `size = 10`. -/
theorem c1_witness :
    gcMalloc 10 0 = (0, (0 + roundedAdvance 10) % 4294967296) ∧
    roundedAdvance 10 = ((10 : Int).toNat + 3) / 4 * 4 ∧
    allocAddrs [10, 20, 1] 0 = [0, 12, 32] :=
  c1_allocate_returns_and_advances 0 10 (by norm_num) (by norm_num)

/-- C2 counterexample: three positive sizes whose rounded advances exceed the
32-bit address space make the cursor wrap, so the returned addresses
`[0, 2^31, 0]` are not strictly increasing — the claim needs a capacity
bound. -/
theorem c2_counterexample :
    (∀ s ∈ ([2147483647, 2147483647, 1] : List Int), 0 < s) ∧
    allocAddrs [2147483647, 2147483647, 1] 0 = [0, 2147483648, 0] ∧
    ¬ List.Chain' (fun x y => x < y) (allocAddrs [2147483647, 2147483647, 1] 0) := by
  refine ⟨by decide, by decide, ?_⟩
  intro hch
  have hlist : allocAddrs [2147483647, 2147483647, 1] 0 = [0, 2147483648, 0] := by
    decide
  rw [hlist, List.chain'_cons, List.chain'_cons] at hch
  omega

/-- C2 (amended): for strictly positive 32-bit sizes, as long as the total
rounded advance keeps the cursor below `2^32` (within the address space, no
wraparound), the returned addresses are strictly increasing, the byte ranges
`[addr, addr + roundedAdvance)` are pairwise disjoint, and every address is
at an offset from the base that is a multiple of 4. -/
theorem c2_alloc_disjoint_amended (sizes : List Int) (b : Nat)
    (hpos : ∀ s ∈ sizes, 0 < s ∧ s < 2147483648)
    (hcap : b + totalAdvance sizes < 4294967296) :
    List.Chain' (fun x y => x < y) (allocAddrs sizes b) ∧
    List.Pairwise (fun p q => p.1 + p.2 ≤ q.1)
      ((allocAddrs sizes b).zip (sizes.map roundedAdvance)) ∧
    ∀ a ∈ allocAddrs sizes b, b ≤ a ∧ 4 ∣ (a - b) := by
  obtain ⟨hlow, hchain, hpair⟩ := alloc_spec sizes b hpos hcap
  refine ⟨hchain, hpair, ?_⟩
  intro a ha
  have h1 := hlow a ha
  have h2 := allocAddrs_align sizes b a ha
  exact ⟨h1, by omega⟩

/-- Witness for C2 (amended) at sizes `[10, 20, 1]`, base 0. -/
theorem c2_witness :
    List.Chain' (fun x y => x < y) (allocAddrs [10, 20, 1] 0) ∧
    List.Pairwise (fun p q => p.1 + p.2 ≤ q.1)
      ((allocAddrs [10, 20, 1] 0).zip (([10, 20, 1] : List Int).map roundedAdvance)) ∧
    ∀ a ∈ allocAddrs [10, 20, 1] 0, 0 ≤ a ∧ 4 ∣ (a - 0) :=
  c2_alloc_disjoint_amended [10, 20, 1] 0 (by decide) (by decide)

/-- C3 counterexample: `Allocate(-8)` from `bump = 100` computes the advance
`(-8 + 3) & ~0x03 = 0xFFFFFFF8`, and the 32-bit cursor addition wraps, so the
new `bump` is 92 — the cursor moved backward, refuting unconditional
monotonicity for `size <= 0`. -/
theorem c3_counterexample :
    gcMalloc (-8) 100 = (100, 92) ∧ ¬ (100 ≤ (gcMalloc (-8) 100).2) := by
  exact ⟨by decide, by decide⟩

/-- C3 (amended): for a 32-bit cursor (`bump < 2^32`), an `Allocate` call —
any signed size accepted — leaves `bump` non-decreasing exactly when the
32-bit addition `bump + roundedAdvance size` does not wrap modulo `2^32`;
when it wraps the cursor strictly decreases (as the counterexample's
`Allocate(-8)` at `bump = 100` shows). -/
theorem c3_bump_nondecreasing_amended (size : Int) (b : Nat)
    (hb : b < 4294967296) :
    b ≤ (gcMalloc size b).2 ↔ b + roundedAdvance size < 4294967296 := by
  have hA := roundedAdvance_lt size
  rw [gcMalloc_snd]
  omega

/-- Witness for C3 (amended) at `size = 10`, `b = 0`. -/
theorem c3_witness :
    (0 : Nat) ≤ (gcMalloc 10 0).2 ↔ 0 + roundedAdvance 10 < 4294967296 :=
  c3_bump_nondecreasing_amended 10 0 (by norm_num)

/-- C4 counterexample: at `l = INT64_MIN`, `r = -1` the quotient `2^63` is
not representable, so C++ `/` and `%` are undefined there (the hardware
traps) even though `r ≠ 0` — refuting "fault if and only if r = 0". -/
theorem c4_counterexample :
    lDiv (-9223372036854775808) (-1) = none ∧
    lRem (-9223372036854775808) (-1) = none ∧
    ((-1 : Int) ≠ 0) := by
  exact ⟨by decide, by decide, by decide⟩

/-- C4 (amended): for 64-bit `l`, `r`, division and remainder fault exactly
when `r = 0` or (`l = INT64_MIN` and `r = -1`); elsewhere `lDiv` is the
truncated quotient and `lRem` the truncated remainder carrying the sign of
`l`: `r * q + m = l`, `|m| < |r|`, `m = 0 ∨ sign m = sign l`, with
`lDiv 7 2 = 3` and `lDiv (-7) 2 = -3`. -/
theorem c4_div_rem_amended (l r : Int)
    (hl : inRange64 l) (hr : inRange64 r) (hr0 : r ≠ 0)
    (hov : ¬(l = int64Min ∧ r = -1)) :
    (∃ q m : Int, lDiv l r = some q ∧ lRem l r = some m ∧
      r * q + m = l ∧ m.natAbs < r.natAbs ∧ (m = 0 ∨ m.sign = l.sign)) ∧
    lDiv 7 2 = some 3 ∧ lDiv (-7) 2 = some (-3) ∧ lRem (-7) 2 = some (-1) ∧
    lDiv l 0 = none ∧ lRem l 0 = none := by
  have hcond : ¬(r = 0 ∨ (l = int64Min ∧ r = -1)) := by tauto
  refine ⟨⟨l.tdiv r, l.tmod r, ?_, ?_, ?_, ?_, ?_⟩,
    by decide, by decide, by decide, ?_, ?_⟩
  · unfold lDiv; rw [if_neg hcond]
  · unfold lRem; rw [if_neg hcond]
  · exact Int.tdiv_add_tmod l r
  · exact natAbs_tmod_lt l hr0
  · exact tmod_sign_cases l hr0
  · unfold lDiv; simp
  · unfold lRem; simp

/-- Witness for C4 (amended) at `l = 7`, `r = 2`. -/
theorem c4_witness :
    (∃ q m : Int, lDiv 7 2 = some q ∧ lRem 7 2 = some m ∧
      2 * q + m = 7 ∧ m.natAbs < (2 : Int).natAbs ∧
      (m = 0 ∨ m.sign = (7 : Int).sign)) ∧
    lDiv 7 2 = some 3 ∧ lDiv (-7) 2 = some (-3) ∧ lRem (-7) 2 = some (-1) ∧
    lDiv 7 0 = none ∧ lRem 7 0 = none :=
  c4_div_rem_amended 7 2 (by unfold inRange64; omega) (by unfold inRange64; omega)
    (by norm_num) (by unfold int64Min; norm_num)

/-- C5: `lAdd` is the two's-complement sum (a 64-bit value congruent to
`l + r` modulo `2^64`), and `lSub l r + r` is congruent to `l` modulo
`2^64`. -/
theorem c5_add_sub_wrap (l r : Int) :
    inRange64 (lAdd l r) ∧
    lAdd l r % 18446744073709551616 = (l + r) % 18446744073709551616 ∧
    (lSub l r + r) % 18446744073709551616 = l % 18446744073709551616 := by
  refine ⟨⟨wrap64_le _, wrap64_lt _⟩, wrap64_emod _, ?_⟩
  unfold lSub wrap64
  omega

/-- C6: double negation is the identity on every 64-bit value other than
`INT64_MIN`, and `INT64_MIN` negates (wraps) to itself. -/
theorem c6_neg_involution (x : Int) (hx : inRange64 x) (hne : x ≠ int64Min) :
    lNeg (lNeg x) = x ∧ lNeg int64Min = int64Min := by
  unfold inRange64 at hx
  unfold int64Min at hne ⊢
  refine ⟨?_, by decide⟩
  unfold lNeg wrap64
  omega

/-- Witness for C6 at `x = 7`. -/
theorem c6_witness : lNeg (lNeg 7) = 7 ∧ lNeg int64Min = int64Min :=
  c6_neg_involution 7 (by unfold inRange64; omega) (by unfold int64Min; norm_num)

/-- C7: the 64-bit shift left is multiplication by `2^(s mod 64)` with the
overflowing bits discarded: the result is a 64-bit value congruent to
`l * 2^(s mod 64)` modulo `2^64`, for every `l` and every shift amount. -/
theorem c7_shl_mod64 (l v : Int) :
    inRange64 (lShl l v) ∧
    lShl l v % 18446744073709551616
      = (l * 2 ^ ((v % 64).toNat)) % 18446744073709551616 := by
  refine ⟨⟨wrap64_le _, wrap64_lt _⟩, ?_⟩
  have hc : toU64 v % 64 = (v % 64).toNat := by
    unfold toU64; omega
  unfold lShl
  rw [wrap64_emod, hc]
  have hcast : ((toU64 l <<< (v % 64).toNat : Nat) : Int)
      = ((toU64 l : Nat) : Int) * 2 ^ ((v % 64).toNat) := by
    push_cast [Nat.shiftLeft_eq]
    ring
  rw [hcast, toU64_cast, Int.mul_emod (l % 18446744073709551616), Int.mul_emod l,
    Int.emod_emod_of_dvd _ dvd_rfl]

/-- C8 counterexample: `main` stores the reservation's result unchecked; when
the reservation fails (`malloc` yields null, i.e. 0) both globals become 0
and allocation proceeds normally — there is no fatal-failure path in this
code. -/
theorem c8_counterexample :
    mainInit 0 = ⟨0, 0⟩ ∧ (mainInit 0).heap = 0 ∧
    gcMalloc 10 (mainInit 0).bump = (0, 12) := by
  exact ⟨rfl, rfl, by decide⟩

/-- C8 (amended): `main` reserves a fixed `16 MiB = 16777216` bytes and sets
both `heap` (the base) and `bump` to the address the environment returns; on
success that is the start of the block, but on failure both become 0 and
execution continues — the code never detects or fatally reports a failed
reservation. -/
theorem c8_init_amended :
    (∀ r : Nat, (mainInit r).heap = r ∧ (mainInit r).bump = r) ∧
    reservedBytes = 16777216 ∧
    (mainInit 0).heap = 0 ∧ (mainInit 0).bump = 0 ∧
    gcMalloc 10 (mainInit 0).bump = (0, 12) :=
  ⟨fun r => ⟨rfl, rfl⟩, by norm_num [reservedBytes], rfl, rfl, by decide⟩

/-- C9: the three-way comparison returns 1 exactly when `l > r`, `-1` exactly
when `l < r`, and 0 exactly when `l = r`, including at `l = r = 0` and at the
64-bit extremes. -/
theorem c9_cmp (l r : Int) (hl : inRange64 l) (hr : inRange64 r) :
    (lCmp l r = 1 ↔ r < l) ∧ (lCmp l r = -1 ↔ l < r) ∧ (lCmp l r = 0 ↔ l = r) ∧
    lCmp 0 0 = 0 ∧ lCmp 9223372036854775807 (-9223372036854775808) = 1 ∧
    lCmp (-9223372036854775808) 9223372036854775807 = -1 := by
  refine ⟨?_, ?_, ?_, by decide, by decide, by decide⟩ <;>
    unfold lCmp <;> split_ifs <;> constructor <;> intro h <;>
    first
    | omega
    | exact h.elim

/-- Witness for C9 at `l = r = 0`. -/
theorem c9_witness :
    (lCmp 0 0 = 1 ↔ (0 : Int) < 0) ∧ (lCmp 0 0 = -1 ↔ (0 : Int) < 0) ∧
    (lCmp 0 0 = 0 ↔ (0 : Int) = 0) ∧
    lCmp 0 0 = 0 ∧ lCmp 9223372036854775807 (-9223372036854775808) = 1 ∧
    lCmp (-9223372036854775808) 9223372036854775807 = -1 :=
  c9_cmp 0 0 (by unfold inRange64; omega) (by unfold inRange64; omega)

/-- C10: the advance `(size + 3) & ~0x03` is always a multiple of 4, so after
any sequence of allocations (arbitrary signed sizes, wraparound included) the
cursor stays congruent to the base modulo 4 and every returned address is
4-byte aligned relative to the base. -/
theorem c10_alignment (sizes : List Int) (b : Nat) :
    (∀ s : Int, 4 ∣ roundedAdvance s) ∧
    allocBump sizes b % 4 = b % 4 ∧
    ∀ a ∈ allocAddrs sizes b, a % 4 = b % 4 :=
  ⟨fun s => roundedAdvance_dvd s, allocBump_align sizes b, allocAddrs_align sizes b⟩
